import Mathlib

/-!
Verification of the trace-context propagation and span-correlation engine of the
customer-onboarding demo (an ECS Flask producer, an SQS hand-off, and a Lambda
batch consumer).  The pure data paths of `onboarding-api/app.py` and
`onboarding-lambda/app.py` are embedded as executable Lean definitions; the
parts of the engine that the repository delegates to the OpenTelemetry library
(the W3C traceparent codec, the span model, and the tracer's parenting rules)
are modelled from the design document, as flagged on each definition.
-/

namespace Demo

/-- W3C trace context as carried on the wire: a 128-bit trace id, a 64-bit span
id and 8-bit flags, modelled as naturals with the bounds recorded in `Valid`. -/
structure TraceContext where
  trace_id : Nat
  span_id : Nat
  trace_flags : Nat
deriving DecidableEq

/-- The bounds and non-zero requirements a wire context must satisfy. -/
def TraceContext.Valid (c : TraceContext) : Prop :=
  c.trace_id < 2 ^ 128 ∧ c.trace_id ≠ 0 ∧
  c.span_id < 2 ^ 64 ∧ c.span_id ≠ 0 ∧
  c.trace_flags < 2 ^ 8

instance (c : TraceContext) : Decidable c.Valid := by
  unfold TraceContext.Valid; infer_instance

/-- Lower-case hex digit for a value below 16. -/
def hexDigitChar (n : Nat) : Char :=
  if n < 10 then Char.ofNat (48 + n) else Char.ofNat (87 + n)

/-- Value of a lower-case hex digit; `none` on anything else. -/
def hexCharVal (c : Char) : Option Nat :=
  if 48 ≤ c.toNat ∧ c.toNat ≤ 57 then some (c.toNat - 48)
  else if 97 ≤ c.toNat ∧ c.toNat ≤ 102 then some (c.toNat - 87)
  else none

/-- Fixed-width big-endian lower-case hex rendering of a natural. -/
def toHexChars : Nat → Nat → List Char
  | 0, _ => []
  | w + 1, n => toHexChars w (n / 16) ++ [hexDigitChar (n % 16)]

/-- Parse a run of lower-case hex digits, folding into an accumulator;
`none` as soon as a non-hex character appears. -/
def parseHexAcc : Nat → List Char → Option Nat
  | acc, [] => some acc
  | acc, c :: cs =>
    match hexCharVal c with
    | some d => parseHexAcc (16 * acc + d) cs
    | none => none

/-- Split a character list at every dash, the usual string-split semantics:
the result is always non-empty and dashes are not kept. -/
def splitDash : List Char → List (List Char)
  | [] => [[]]
  | c :: rest =>
    if c = '-' then [] :: splitDash rest
    else
      match splitDash rest with
      | [] => [[c]]
      | g :: gs => (c :: g) :: gs

/-- Modelled from the spec: parsing of a `traceparent` value (the repository
uses OpenTelemetry's propagator, which is not part of src/).  Per the design
document the value splits on dashes into exactly four segments of hex lengths
2, 32, 16 and 2; wrong segment count, wrong hex length, a non-hex character or
an all-zero trace or span id is malformed and yields no parent. -/
def parseTraceparent (cs : List Char) : Option TraceContext :=
  match splitDash cs with
  | [v, t, s, f] =>
    if v.length = 2 ∧ t.length = 32 ∧ s.length = 16 ∧ f.length = 2 then
      match parseHexAcc 0 v, parseHexAcc 0 t, parseHexAcc 0 s, parseHexAcc 0 f with
      | some _, some tid, some sid, some fl =>
        if tid = 0 ∨ sid = 0 then none else some ⟨tid, sid, fl⟩
      | _, _, _, _ => none
    else none
  | _ => none

/-- The fixed-format `traceparent` rendering of a context: version byte `00`,
then 32, 16 and 2 lower-case hex characters, dash separated. -/
def traceparentChars (c : TraceContext) : List Char :=
  toHexChars 2 0 ++ '-' ::
    (toHexChars 32 c.trace_id ++ '-' ::
      (toHexChars 16 c.span_id ++ '-' :: toHexChars 2 c.trace_flags))

/-- Modelled from the spec: `inject` of the carrier codec (the repository calls
OpenTelemetry's `propagate.inject`, not part of src/).  It emits the single
lower-case key `traceparent` holding the fixed-format rendering of the active
context; the producer in this system carries no tracestate. -/
def inject (c : TraceContext) : List (String × String) :=
  [("traceparent", String.mk (traceparentChars c))]

/-- ASCII lower-casing of one character, as Python `str.lower` acts on the
ASCII keys this system uses. -/
def lowerChar (c : Char) : Char :=
  if 65 ≤ c.toNat ∧ c.toNat ≤ 90 then Char.ofNat (c.toNat + 32) else c

/-- ASCII lower-casing of a string. -/
def lowerStr (s : String) : String :=
  String.mk (s.data.map lowerChar)

/-- Case-insensitive lookup in a string-keyed carrier: the first entry whose
lower-cased key matches. -/
def dictGetCI (d : List (String × String)) (k : String) : Option String :=
  (d.find? (fun kv => lowerStr kv.1 = k)).map (·.2)

/-- Modelled from the spec: `extract` of the carrier codec (the repository
calls OpenTelemetry's `propagate.extract`, not part of src/).  The
`traceparent` key is matched case-insensitively; a missing key or a malformed
value yields no parent, and extraction is a total function — it never raises. -/
def extract (carrier : List (String × String)) : Option TraceContext :=
  match dictGetCI carrier "traceparent" with
  | some s => parseTraceparent s.data
  | none => none

/-- Python whitespace as stripped by `str.strip`. -/
def isPySpace (c : Char) : Bool :=
  c == ' ' || c == '\t' || c == '\n' || c == '\r' || c.toNat == 11 || c.toNat == 12

/-- Python `str.strip`: drop whitespace from both ends. -/
def pyStrip (s : String) : String :=
  String.mk (((s.data.dropWhile isPySpace).reverse.dropWhile isPySpace).reverse)

/-- Python `a or b` on optional strings: `b` when `a` is `None` or empty. -/
def pyOrStr : Option String → Option String → Option String
  | some s, b => if s = "" then b else some s
  | none, b => b

/-- Python dict assignment `d[k] = v`: replace the binding in place, else
append. -/
def dictSet {α : Type} : List (String × α) → String → α → List (String × α)
  | [], k, v => [(k, v)]
  | (k', v') :: rest, k, v =>
    if k' = k then (k, v) :: rest else (k', v') :: dictSet rest k v

/-- Python `d.get(k)`: exact-key lookup. -/
def dictGet {α : Type} (d : List (String × α)) (k : String) : Option α :=
  (d.find? (fun kv => kv.1 == k)).map (·.2)

/-- One SQS message-attribute value as both services shape it: the producer
fills the boto field `StringValue`, and the consumer reads `stringValue`
first, falling back to `StringValue` (src/onboarding-lambda/app.py line 83). -/
structure MessageAttributeValue where
  stringValue : Option String
  StringValue : Option String
deriving DecidableEq

/-- One SQS record as the Lambda event presents it. -/
structure SqsRecord where
  messageAttributes : List (String × MessageAttributeValue)
  messageId : String
  body : String
deriving DecidableEq

/-- `_carrier_from_sqs_attributes` from src/onboarding-lambda/app.py lines
79-86: lower-case every key, take `stringValue or StringValue` when it is a
string, strip it, and store it in the carrier dict. -/
def _carrier_from_sqs_attributes
    (attrs : List (String × MessageAttributeValue)) : List (String × String) :=
  attrs.foldl
    (fun carrier kv =>
      match pyOrStr kv.2.stringValue kv.2.StringValue with
      | some sv => dictSet carrier (lowerStr kv.1) (pyStrip sv)
      | none => carrier)
    []

/-- The per-record extraction of src/onboarding-lambda/app.py lines 112-114:
build the carrier from the record's message attributes and run the codec's
`extract` on it. -/
def extractRecord (r : SqsRecord) : Option TraceContext :=
  extract (_carrier_from_sqs_attributes r.messageAttributes)

/-- A runtime trace or span id: either reconstructed from the wire (`wire`) or
freshly generated by this process's id generator (`gen`, numbered by a
generation counter — the model of "freshly generated random id", which never
collides with an id received from the wire nor with another fresh id). -/
inductive RuntimeId where
  | wire (n : Nat)
  | gen (n : Nat)
deriving DecidableEq

/-- An id already in existence before generation counter `st`: any wire id,
or a generated id minted at an earlier counter value. -/
def RuntimeId.bornBefore : RuntimeId → Nat → Prop
  | .wire _, _ => True
  | .gen n, st => n < st

instance : ∀ (x : RuntimeId) (st : Nat), Decidable (x.bornBefore st)
  | .wire _, _ => .isTrue trivial
  | .gen n, st => inferInstanceAs (Decidable (n < st))

/-- A generated id lying in the counter interval `[lo, hi)`; wire ids satisfy
this vacuously. -/
def RuntimeId.genIn : RuntimeId → Nat → Nat → Prop
  | .wire _, _, _ => True
  | .gen n, lo, hi => lo ≤ n ∧ n < hi

/-- A span's own identity: its trace id and span id. -/
structure SpanContext where
  traceId : RuntimeId
  spanId : RuntimeId
deriving DecidableEq

/-- The five OpenTelemetry span kinds. -/
inductive SpanKind where
  | INTERNAL
  | SERVER
  | CLIENT
  | PRODUCER
  | CONSUMER
deriving DecidableEq

/-- The identity-and-parentage facet of a span as the tracer creates it. -/
structure Span where
  name : String
  kind : SpanKind
  context : SpanContext
  parent : Option SpanContext
  links : List SpanContext
deriving DecidableEq

/-- Modelled from the spec: the tracer's `start_span` (the repository calls
the OpenTelemetry SDK, not part of src/).  With a parent the new span takes
the parent's trace id and a fresh span id; with no parent both ids are fresh,
making a new root trace.  The `Nat` state is the fresh-id generation counter. -/
def start_span (nm : String) (kind : SpanKind) (parent : Option SpanContext)
    (links : List SpanContext) (st : Nat) : Span × Nat :=
  match parent with
  | some p => (⟨nm, kind, ⟨p.traceId, .gen st⟩, some p, links⟩, st + 1)
  | none => (⟨nm, kind, ⟨.gen st, .gen (st + 1)⟩, none, links⟩, st + 2)

/-- The span context a remote wire context reconstructs to. -/
def remoteContext (c : TraceContext) : SpanContext :=
  ⟨.wire c.trace_id, .wire c.span_id⟩

/-- A causal chain: each span is started with the previous span as explicit
parent. -/
def spanChain (nm : String) (kind : SpanKind) :
    Nat → SpanContext → Nat → List Span
  | 0, _, _ => []
  | i + 1, p, st =>
    let s := start_span nm kind (some p) [] st
    s.1 :: spanChain nm kind i s.1.context s.2

/-- State of the consumer's per-record loop, src/onboarding-lambda/app.py
lines 107-154: the per-record CONSUMER spans in record order, the link targets
collected from records whose extracted context is valid, the processed count,
and the generation counter after the loop. -/
structure BatchLoop where
  spans : List Span
  links : List SpanContext
  processed : Nat
  next : Nat
deriving DecidableEq

/-- The consumer's per-record loop: each record's carrier is extracted; a
valid extracted context is appended to the batch links; the per-record
`sqs.process` CONSUMER span is started with the extracted context as explicit
parent — with no extracted context the record becomes its own fresh root. -/
def processRecords : List SqsRecord → Nat → BatchLoop
  | [], st => ⟨[], [], 0, st⟩
  | r :: rs, st =>
    let ctx? := extractRecord r
    let lk := match ctx? with | some c => [remoteContext c] | none => []
    let sp := start_span "sqs.process" .CONSUMER (ctx?.map remoteContext) [] st
    let rest := processRecords rs sp.2
    ⟨sp.1 :: rest.spans, lk ++ rest.links, rest.processed + 1, rest.next⟩

/-- Everything the batch path of the Lambda handler creates. -/
structure HandlerResult where
  lambdaSpan : Span
  recordSpans : List Span
  batchSpan : Span
  processed : Nat
  next : Nat
deriving DecidableEq

/-- The batch path of `handler`, src/onboarding-lambda/app.py lines 91-170:
a `lambda.invoke` SERVER root span for the invocation; the per-record loop
inside it; then the `sqs.batch` CONSUMER span started inside the invocation
span (hence parented to it) with the collected links. -/
def handlerBatch (records : List SqsRecord) (st : Nat) : HandlerResult :=
  let ls := start_span "lambda.invoke" .SERVER none [] st
  let loop := processRecords records ls.2
  let bs := start_span "sqs.batch" .CONSUMER (some ls.1.context) loop.links loop.next
  ⟨ls.1, loop.spans, bs.1, loop.processed, bs.2⟩

/-- Outcome of a handler invocation: the direct path taken on an empty record
list, or the batch path. -/
inductive HandlerOutcome where
  | direct (lambdaSpan directSpan : Span) (next : Nat)
  | batch (res : HandlerResult)
deriving DecidableEq

/-- `handler` from src/onboarding-lambda/app.py lines 88-170: with no records
a `lambda.direct_invoke` span under the invocation span; otherwise the batch
path. -/
def handler : List SqsRecord → Nat → HandlerOutcome
  | [], st =>
    let ls := start_span "lambda.invoke" .SERVER none [] st
    let ds := start_span "lambda.direct_invoke" .SERVER (some ls.1.context) [] ls.2
    .direct ls.1 ds.1 ds.2
  | r :: rs, st => .batch (handlerBatch (r :: rs) st)

/-- The configured queue URL of src/onboarding-api/app.py line 52. -/
def SQS_QUEUE_URL : String :=
  "https://sqs.us-west-2.amazonaws.com/104013952213/cal-onboarding-queue"

/-- The externally observable steps of the producer-side hand-off, in program
order. -/
inductive QueueEvent where
  | startProducerSpan (ctx : TraceContext)
  | injectEvent (carrier : List (String × String))
  | sendEvent (queueUrl : String) (attrs : List (String × MessageAttributeValue))
  | endProducerSpan
deriving DecidableEq

/-- `queue_for_processing` from src/onboarding-api/app.py lines 246-327, the
successful path: inside the `sqs.send` PRODUCER span (whose trace id is the
active trace's and whose span id is fresh), the context is injected into an
empty carrier, the carrier's `traceparent`/`tracestate`/`baggage` entries are
mapped to SQS message attributes with boto's capitalised `StringValue` field,
`customer.id` is appended when the record has one, and only then does the send
call receive those attributes.  Returns the events in program order and the
function's `True` result. -/
def queue_for_processing (active : TraceContext) (producerSpanId : Nat)
    (customerId : Option String) : List QueueEvent × Bool :=
  let pctx : TraceContext := ⟨active.trace_id, producerSpanId, active.trace_flags⟩
  let carrier := inject pctx
  let msg_attrs :=
    (carrier.filter (fun kv =>
        kv.1 == "traceparent" || kv.1 == "tracestate" || kv.1 == "baggage")).map
      (fun kv => (kv.1, MessageAttributeValue.mk none (some kv.2)))
    ++ (match customerId with
        | some cid => [("customer.id", MessageAttributeValue.mk none (some cid))]
        | none => [])
  ([.startProducerSpan pctx, .injectEvent carrier,
    .sendEvent SQS_QUEUE_URL msg_attrs, .endProducerSpan], true)

/-- `validate_customer_request` from src/onboarding-api/app.py lines 59-89:
a missing or falsy `customer_id` raises `ValidationError("Customer ID is
required")`, modelled as the error branch of `Except`. -/
def validate_customer_request (payload : List (String × String)) :
    Except String String :=
  match dictGet payload "customer_id" with
  | none => .error "Customer ID is required"
  | some cid => if cid = "" then .error "Customer ID is required" else .ok cid

/-- `calculate_success_score` from src/onboarding-api/app.py lines 369-385:
0.4 for the Lambda trigger, 0.4 for the queue step, 0.2 for the welcome
message.  The Python floats 0.4, 0.2 and 0.8 behave exactly like the
rationals here at every one of the eight reachable sums (0.4 + 0.4 doubles
the significand of the IEEE double 0.4, giving exactly the IEEE double 0.8),
so the score is modelled in ℚ. -/
def calculate_success_score (lambda_success queue_success notification_sent : Bool) : ℚ :=
  (if lambda_success then (0.4 : ℚ) else 0) +
  (if queue_success then (0.4 : ℚ) else 0) +
  (if notification_sent then (0.2 : ℚ) else 0)

/-- Span status: UNSET, OK, or ERROR with a message. -/
inductive SpanStatus where
  | unset
  | ok
  | error (msg : String)
deriving DecidableEq

/-- What the `/onboard` endpoint hands back to the HTTP layer. -/
structure OnboardResponse where
  httpStatus : Nat
  status : String
  errorMsg : Option String
deriving DecidableEq

/-- The `/onboard` endpoint, src/onboarding-api/app.py lines 397-558, with
the random step outcomes passed in as oracle booleans: a `ValidationError` is
caught at the workflow-span boundary, recorded as ERROR with its message on
the span, and returned as HTTP 400 with the same message; otherwise the
welcome message is attempted only for new customers, and the score decides
200/"success" against 206/"partial_success".  The second component is the
status the workflow span ends with (never set on the non-error paths). -/
def onboard (payload : List (String × String))
    (lambda_success queue_success notif_success existing_customer : Bool) :
    OnboardResponse × SpanStatus :=
  match validate_customer_request payload with
  | .error m => (⟨400, "validation_error", some m⟩, .error m)
  | .ok _ =>
    let notification_sent := if existing_customer then false else notif_success
    let score := calculate_success_score lambda_success queue_success notification_sent
    if (0.8 : ℚ) ≤ score then (⟨200, "success", none⟩, .unset)
    else (⟨206, "partial_success", none⟩, .unset)

/-- A typed span attribute value: string, number or boolean. -/
inductive AttrValue where
  | str (s : String)
  | num (q : ℚ)
  | boolean (b : Bool)
deriving DecidableEq

/-- Modelled from the spec: the mutable facet of the span model (the
repository relies on the OpenTelemetry SDK span, not part of src/).  A span
is mutable while open and sealed by `end_span`. -/
structure SdkSpan where
  attributes : List (String × AttrValue)
  status : SpanStatus
  startTime : Nat
  endTime : Option Nat
  ended : Bool
deriving DecidableEq

/-- Modelled from the spec: `set_attribute` fails silently — it is a no-op
once the span is ended. -/
def set_attribute (s : SdkSpan) (k : String) (v : AttrValue) : SdkSpan :=
  if s.ended then s else { s with attributes := dictSet s.attributes k v }

/-- Modelled from the spec: `set_status`, also inert after the span ends. -/
def set_status (s : SdkSpan) (st : SpanStatus) : SdkSpan :=
  if s.ended then s else { s with status := st }

/-- Modelled from the spec: `end` — only the first call captures the end
timestamp; later calls are no-ops. -/
def end_span (s : SdkSpan) (t : Nat) : SdkSpan :=
  if s.ended then s else { s with ended := true, endTime := some t }

/-! ### Hex and dash-splitting lemmas -/

lemma hexCharVal_hexDigitChar {d : Nat} (hd : d < 16) :
    hexCharVal (hexDigitChar d) = some d := by
  interval_cases d <;> decide

lemma hexDigitChar_ne_dash {d : Nat} (hd : d < 16) : hexDigitChar d ≠ '-' := by
  interval_cases d <;> decide

lemma toHexChars_length (w : Nat) : ∀ n, (toHexChars w n).length = w := by
  induction w with
  | zero => intro n; rfl
  | succ w ih => intro n; simp [toHexChars, ih]

lemma toHexChars_no_dash (w : Nat) : ∀ n, ∀ c ∈ toHexChars w n, c ≠ '-' := by
  induction w with
  | zero => intro n c hc; simp [toHexChars] at hc
  | succ w ih =>
    intro n c hc
    simp only [toHexChars, List.mem_append, List.mem_singleton] at hc
    rcases hc with h | h
    · exact ih _ c h
    · subst h; exact hexDigitChar_ne_dash (Nat.mod_lt _ (by norm_num))

lemma parseHexAcc_append (xs : List Char) : ∀ (acc : Nat) (ys : List Char),
    parseHexAcc acc (xs ++ ys) =
      match parseHexAcc acc xs with
      | some a => parseHexAcc a ys
      | none => none := by
  induction xs with
  | nil => intro acc ys; rfl
  | cons c cs ih =>
    intro acc ys
    simp only [List.cons_append, parseHexAcc]
    cases hexCharVal c with
    | none => rfl
    | some d => exact ih _ ys

lemma parseHexAcc_toHexChars (w : Nat) : ∀ acc n, n < 16 ^ w →
    parseHexAcc acc (toHexChars w n) = some (acc * 16 ^ w + n) := by
  induction w with
  | zero =>
    intro acc n hn
    interval_cases n
    simp [toHexChars, parseHexAcc]
  | succ w ih =>
    intro acc n hn
    have hdiv : n / 16 < 16 ^ w := by
      rw [Nat.div_lt_iff_lt_mul (by norm_num)]
      calc n < 16 ^ (w + 1) := hn
        _ = 16 ^ w * 16 := by rw [pow_succ]
    rw [toHexChars, parseHexAcc_append, ih acc (n / 16) hdiv]
    simp only [parseHexAcc, hexCharVal_hexDigitChar (Nat.mod_lt n (by norm_num))]
    congr 1
    have h1 := Nat.div_add_mod n 16
    have h2 : acc * 16 ^ (w + 1) = 16 * (acc * 16 ^ w) := by ring
    omega

lemma splitDash_no_dash (xs : List Char) (h : ∀ c ∈ xs, c ≠ '-') :
    splitDash xs = [xs] := by
  induction xs with
  | nil => rfl
  | cons c cs ih =>
    have hc : c ≠ '-' := h c (by simp)
    have hrest := ih (fun d hd => h d (by simp [hd]))
    simp [splitDash, hc, hrest]

lemma splitDash_append (xs : List Char) (h : ∀ c ∈ xs, c ≠ '-') (ys : List Char) :
    splitDash (xs ++ '-' :: ys) = xs :: splitDash ys := by
  induction xs with
  | nil => simp [splitDash]
  | cons c cs ih =>
    have hc : c ≠ '-' := h c (by simp)
    have hrest := ih (fun d hd => h d (by simp [hd]))
    simp [splitDash, hc, hrest]

lemma splitDash_traceparentChars (c : TraceContext) :
    splitDash (traceparentChars c) =
      [toHexChars 2 0, toHexChars 32 c.trace_id,
       toHexChars 16 c.span_id, toHexChars 2 c.trace_flags] := by
  unfold traceparentChars
  rw [splitDash_append _ (toHexChars_no_dash 2 0),
    splitDash_append _ (toHexChars_no_dash 32 c.trace_id),
    splitDash_append _ (toHexChars_no_dash 16 c.span_id),
    splitDash_no_dash _ (toHexChars_no_dash 2 c.trace_flags)]

/-- Core round-trip fact: parsing the fixed-format rendering of a valid
context recovers exactly that context. -/
lemma parseTraceparent_traceparentChars (c : TraceContext) (h : c.Valid) :
    parseTraceparent (traceparentChars c) = some c := by
  obtain ⟨h1, h2, h3, h4, h5⟩ := h
  have e32 : (16 : Nat) ^ 32 = 2 ^ 128 := by decide
  have e16 : (16 : Nat) ^ 16 = 2 ^ 64 := by decide
  have e2 : (16 : Nat) ^ 2 = 2 ^ 8 := by decide
  have hv : parseHexAcc 0 (toHexChars 2 0) = some 0 := by
    simpa using parseHexAcc_toHexChars 2 0 0 (by norm_num)
  have ht : parseHexAcc 0 (toHexChars 32 c.trace_id) = some c.trace_id := by
    simpa using parseHexAcc_toHexChars 32 0 c.trace_id (by rw [e32]; exact h1)
  have hs : parseHexAcc 0 (toHexChars 16 c.span_id) = some c.span_id := by
    simpa using parseHexAcc_toHexChars 16 0 c.span_id (by rw [e16]; exact h3)
  have hf : parseHexAcc 0 (toHexChars 2 c.trace_flags) = some c.trace_flags := by
    simpa using parseHexAcc_toHexChars 2 0 c.trace_flags (by rw [e2]; exact h5)
  rw [parseTraceparent, splitDash_traceparentChars]
  simp [toHexChars_length, hv, ht, hs, hf, h2, h4]

lemma dictGetCI_traceparent_single (v : String) :
    dictGetCI [("traceparent", v)] "traceparent" = some v := by
  have h : lowerStr "traceparent" = "traceparent" := by decide
  simp [dictGetCI, List.find?, h]

/-- C3. Round-trip: for every valid TraceContext, `extract (inject ctx)`
returns the identical trace id, span id and flags; injecting the concrete
context of the end-to-end scenario yields exactly
`traceparent = "00-0af7651916cd43dd8448eb211c80319c-b7ad6b7169203331-01"`, and
extracting that exact string returns the original three values. -/
theorem C3_roundtrip (c : TraceContext) (h : c.Valid) :
    extract (inject c) = some c ∧
    inject ⟨0x0af7651916cd43dd8448eb211c80319c, 0xb7ad6b7169203331, 1⟩ =
      [("traceparent", "00-0af7651916cd43dd8448eb211c80319c-b7ad6b7169203331-01")] ∧
    extract [("traceparent", "00-0af7651916cd43dd8448eb211c80319c-b7ad6b7169203331-01")] =
      some ⟨0x0af7651916cd43dd8448eb211c80319c, 0xb7ad6b7169203331, 1⟩ := by
  refine ⟨?_, by decide, by decide⟩
  show extract [("traceparent", String.mk (traceparentChars c))] = some c
  rw [extract, dictGetCI_traceparent_single]
  exact parseTraceparent_traceparentChars c h

/-- Witness for C3 at the concrete context of the end-to-end scenario. -/
theorem C3_roundtrip_witness :
    extract (inject ⟨0x0af7651916cd43dd8448eb211c80319c, 0xb7ad6b7169203331, 1⟩) =
      some ⟨0x0af7651916cd43dd8448eb211c80319c, 0xb7ad6b7169203331, 1⟩ :=
  (C3_roundtrip ⟨0x0af7651916cd43dd8448eb211c80319c, 0xb7ad6b7169203331, 1⟩
    (by decide)).1

lemma dictGetCI_not_found (d : List (String × String)) (k : String)
    (h : ∀ kv ∈ d, lowerStr kv.1 ≠ k) : dictGetCI d k = none := by
  induction d with
  | nil => rfl
  | cons kv rest ih =>
    have hk : lowerStr kv.1 ≠ k := h kv (by simp)
    have hrest := ih (fun x hx => h x (List.mem_cons_of_mem _ hx))
    simp only [dictGetCI] at hrest ⊢
    rw [List.find?_cons_of_neg _ (by simpa using hk)]
    exact hrest

/-- C4. Malformed-input safety: `extract` is a total function (hence never
raises); it returns no parent on an empty mapping, on any mapping whose keys
never match `traceparent` case-insensitively, on a `traceparent` value with
the wrong number of dash segments, and on one whose four segments have wrong
hex lengths; and the consumer loop proceeds on such a record by minting a
fresh root trace (no parent, freshly generated trace id). -/
theorem C4_malformed_safety :
    extract [] = none ∧
    (∀ carrier, (∀ kv ∈ carrier, lowerStr kv.1 ≠ "traceparent") →
      extract carrier = none) ∧
    (∀ (s : String) (gs : List (List Char)), splitDash s.data = gs →
      gs.length ≠ 4 → extract [("traceparent", s)] = none) ∧
    (∀ (s : String) v t p f, splitDash s.data = [v, t, p, f] →
      ¬(v.length = 2 ∧ t.length = 32 ∧ p.length = 16 ∧ f.length = 2) →
      extract [("traceparent", s)] = none) ∧
    (∀ (r : SqsRecord) rs st, extractRecord r = none →
      ∃ sp, (processRecords (r :: rs) st).spans.head? = some sp ∧
        sp.parent = none ∧ sp.context.traceId = .gen st) := by
  refine ⟨rfl, ?_, ?_, ?_, ?_⟩
  · intro carrier h
    rw [extract, dictGetCI_not_found carrier _ h]
  · intro s gs hsplit hcount
    have hshow : extract [("traceparent", s)] = parseTraceparent s.data := by
      rw [extract, dictGetCI_traceparent_single]
    rw [hshow, parseTraceparent.eq_def, hsplit]
    rcases gs with _ | ⟨a, _ | ⟨b, _ | ⟨c, _ | ⟨d, _ | ⟨e, rest⟩⟩⟩⟩⟩ <;>
      first
        | rfl
        | (exfalso; simp at hcount)
  · intro s v t p f hsplit hlen
    have hshow : extract [("traceparent", s)] = parseTraceparent s.data := by
      rw [extract, dictGetCI_traceparent_single]
    rw [hshow, parseTraceparent.eq_def, hsplit]
    simp [hlen]
  · intro r rs st h
    refine ⟨⟨"sqs.process", .CONSUMER, ⟨.gen st, .gen (st + 1)⟩, none, []⟩, ?_, rfl, rfl⟩
    simp [processRecords, h, start_span]

/-- Witness for C4 at concrete malformed carriers and a concrete record with
no traceparent attribute. -/
theorem C4_malformed_safety_witness :
    extract [("other", "x")] = none ∧
    extract [("traceparent", "00")] = none ∧
    extract [("traceparent", "00-ab-cd-ef")] = none ∧
    ∃ sp, (processRecords [⟨[], "m1", ""⟩] 7).spans.head? = some sp ∧
      sp.parent = none ∧ sp.context.traceId = .gen 7 :=
  ⟨C4_malformed_safety.2.1 [("other", "x")] (by decide),
   C4_malformed_safety.2.2.1 "00" [['0', '0']] (by decide) (by decide),
   C4_malformed_safety.2.2.2.1 "00-ab-cd-ef"
     ['0', '0'] ['a', 'b'] ['c', 'd'] ['e', 'f'] (by decide) (by decide),
   C4_malformed_safety.2.2.2.2 ⟨[], "m1", ""⟩ [] 7 (by decide)⟩

lemma dictGetCI_map_lower (d : List (String × String)) (k : String) :
    dictGetCI d k =
      ((d.map (fun kv => (lowerStr kv.1, kv.2))).find?
        (fun kv => kv.1 = k)).map (·.2) := by
  induction d with
  | nil => rfl
  | cons kv rest ih =>
    by_cases hk : lowerStr kv.1 = k
    · simp [dictGetCI, List.find?_cons, hk]
    · simp only [dictGetCI, List.map_cons] at ih ⊢
      rw [List.find?_cons_of_neg _ (by simpa using hk),
        List.find?_cons_of_neg _ (by simpa using hk)]
      exact ih

lemma extract_eq_of_lower_eq (c₁ c₂ : List (String × String))
    (h : c₁.map (fun kv => (lowerStr kv.1, kv.2)) =
      c₂.map (fun kv => (lowerStr kv.1, kv.2))) :
    extract c₁ = extract c₂ := by
  rw [extract, extract, dictGetCI_map_lower, dictGetCI_map_lower, h]

/-- C5. Case-insensitivity: extraction depends on carrier keys only through
their lower-casing, so a carrier with key `TRACEPARENT` extracts exactly as
one with key `traceparent`; and inject only ever emits lower-case keys. -/
theorem C5_case_insensitivity :
    (∀ c₁ c₂ : List (String × String),
      c₁.map (fun kv => (lowerStr kv.1, kv.2)) =
        c₂.map (fun kv => (lowerStr kv.1, kv.2)) →
      extract c₁ = extract c₂) ∧
    (∀ v rest, extract (("TRACEPARENT", v) :: rest) =
      extract (("traceparent", v) :: rest)) ∧
    (∀ c : TraceContext, ∀ kv ∈ inject c, lowerStr kv.1 = kv.1) := by
  refine ⟨extract_eq_of_lower_eq, ?_, ?_⟩
  · intro v rest
    apply extract_eq_of_lower_eq
    have h : lowerStr "TRACEPARENT" = lowerStr "traceparent" := by decide
    simp [h]
  · intro c kv hkv
    simp only [inject, List.mem_singleton] at hkv
    subst hkv
    show lowerStr "traceparent" = "traceparent"
    decide

/-- Witness for C5 on a concrete mixed-case carrier. -/
theorem C5_case_insensitivity_witness :
    extract [("TrAcEpArEnT", "x")] = extract [("traceparent", "x")] :=
  C5_case_insensitivity.1 _ _ (by decide)

/-! ### Trace continuity along causal chains -/

lemma spanChain_traceId (nm : String) (kind : SpanKind) (i : Nat) :
    ∀ p st, ∀ sp ∈ spanChain nm kind i p st, sp.context.traceId = p.traceId := by
  induction i with
  | zero => intro p st sp hsp; simp [spanChain] at hsp
  | succ i ih =>
    intro p st sp hsp
    simp only [spanChain, List.mem_cons] at hsp
    rcases hsp with h | h
    · subst h; rfl
    · have := ih _ _ sp h
      simpa [start_span] using this

lemma spanChain_spanIds (nm : String) (kind : SpanKind) (i : Nat) :
    ∀ p st, (spanChain nm kind i p st).map (fun sp => sp.context.spanId) =
      (List.range' st i).map RuntimeId.gen := by
  induction i with
  | zero => intro p st; rfl
  | succ i ih =>
    intro p st
    simp only [spanChain, start_span, List.map_cons, ih, List.range'_succ]

lemma spanChain_spanIds_nodup (nm : String) (kind : SpanKind) (i : Nat)
    (p : SpanContext) (st : Nat) :
    ((spanChain nm kind i p st).map (fun sp => sp.context.spanId)).Nodup := by
  rw [spanChain_spanIds]
  refine List.Nodup.map ?_ (List.nodup_range' _ _)
  intro a b hab
  exact RuntimeId.gen.inj hab

/-- C2. Trace continuity: a span started with an explicit parent context takes
the parent's trace id and a fresh, different span id; along a whole causal
chain the trace id is preserved unchanged while every span id is fresh —
pairwise distinct and distinct from the parent's. -/
theorem C2_trace_continuity (nm : String) (kind : SpanKind) (p : SpanContext)
    (links : List SpanContext) (st i : Nat) (hp : p.spanId.bornBefore st) :
    ((start_span nm kind (some p) links st).1.context.traceId = p.traceId ∧
      (start_span nm kind (some p) links st).1.context.spanId ≠ p.spanId) ∧
    (∀ sp ∈ spanChain nm kind i p st, sp.context.traceId = p.traceId) ∧
    ((spanChain nm kind i p st).map (fun sp => sp.context.spanId)).Nodup ∧
    (∀ sp ∈ spanChain nm kind i p st, sp.context.spanId ≠ p.spanId) := by
  have hne : ∀ j : Nat, st ≤ j → RuntimeId.gen j ≠ p.spanId := by
    intro j hstj
    cases hps : p.spanId with
    | wire k => intro h; cases h
    | gen n =>
      rw [hps] at hp
      simp only [RuntimeId.bornBefore] at hp
      intro h
      have := RuntimeId.gen.inj h
      omega
  refine ⟨⟨rfl, ?_⟩, spanChain_traceId nm kind i p st,
    spanChain_spanIds_nodup nm kind i p st, ?_⟩
  · exact hne st le_rfl
  · intro sp hsp
    have hmem : sp.context.spanId ∈
        (spanChain nm kind i p st).map (fun sp => sp.context.spanId) :=
      List.mem_map_of_mem _ hsp
    rw [spanChain_spanIds] at hmem
    simp only [List.mem_map, List.mem_range'_1] at hmem
    obtain ⟨j, hjr, hj⟩ := hmem
    rw [← hj]
    exact hne j hjr.1

/-- Witness for C2 at a concrete wire parent. -/
theorem C2_trace_continuity_witness :
    (start_span "op" SpanKind.INTERNAL
        (some ⟨RuntimeId.wire 5, RuntimeId.wire 6⟩) [] 0).1.context.traceId =
      RuntimeId.wire 5 ∧
    (start_span "op" SpanKind.INTERNAL
        (some ⟨RuntimeId.wire 5, RuntimeId.wire 6⟩) [] 0).1.context.spanId ≠
      RuntimeId.wire 6 :=
  (C2_trace_continuity "op" SpanKind.INTERNAL ⟨RuntimeId.wire 5, RuntimeId.wire 6⟩
    [] 0 2 trivial).1

/-! ### Error boundary and success threshold of the onboarding endpoint -/

/-- C8. A ValidationError raised inside the traced onboarding workflow is
caught at the workflow-span boundary, recorded as status ERROR carrying the
very same message, and returned to the caller unchanged as the HTTP-level
outcome (status 400, body status "validation_error", the same message);
tracing neither masks nor alters the business error. -/
theorem C8_validation_error_boundary (payload : List (String × String))
    (ls qs ns ex : Bool) (m : String)
    (h : validate_customer_request payload = .error m) :
    onboard payload ls qs ns ex =
      (⟨400, "validation_error", some m⟩, SpanStatus.error m) ∧
    (onboard payload ls qs ns ex).2 = SpanStatus.error m ∧
    (onboard payload ls qs ns ex).1.errorMsg = some m := by
  have hmain : onboard payload ls qs ns ex =
      (⟨400, "validation_error", some m⟩, SpanStatus.error m) := by
    rw [onboard.eq_def, h]
  exact ⟨hmain, by rw [hmain], by rw [hmain]⟩

/-- Witness for C8: the empty payload fails validation with the exact message
the validator raises, and the endpoint surfaces it unchanged. -/
theorem C8_validation_error_boundary_witness :
    onboard [] true true true false =
      (⟨400, "validation_error", some "Customer ID is required"⟩,
        SpanStatus.error "Customer ID is required") :=
  (C8_validation_error_boundary [] true true true false
    "Customer ID is required" rfl).1

/-- C10. For a request that passes validation, the score reaches the 0.8
threshold exactly when the Lambda trigger and the queue step both succeeded,
whatever the welcome-message outcome; the endpoint then returns 200 with
status "success", and otherwise 206 with status "partial_success". -/
theorem C10_success_threshold (payload : List (String × String))
    (ls qs ns ex nb : Bool) (cid : String)
    (h : validate_customer_request payload = .ok cid) :
    ((0.8 : ℚ) ≤ calculate_success_score ls qs nb ↔ (ls ∧ qs)) ∧
    (((onboard payload ls qs ns ex).1.httpStatus = 200 ∧
      (onboard payload ls qs ns ex).1.status = "success") ↔ (ls ∧ qs)) ∧
    (¬(ls ∧ qs) → (onboard payload ls qs ns ex).1.httpStatus = 206 ∧
      (onboard payload ls qs ns ex).1.status = "partial_success") := by
  cases ls <;> cases qs <;> cases ns <;> cases ex <;> cases nb <;>
    simp [onboard, h, calculate_success_score] <;> norm_num

/-- Witness for C10: with the queue step failed, the endpoint answers 206
"partial_success". -/
theorem C10_success_threshold_witness :
    (onboard [("customer_id", "alice")] true false false false).1.httpStatus = 206 ∧
    (onboard [("customer_id", "alice")] true false false false).1.status =
      "partial_success" :=
  (C10_success_threshold [("customer_id", "alice")] true false false false true
    "alice" rfl).2.2 (by simp)

/-! ### Immutability after end -/

lemma foldl_set_attribute_ended (ops : List (String × AttrValue)) :
    ∀ s : SdkSpan, s.ended = true →
      ops.foldl (fun sp kv => set_attribute sp kv.1 kv.2) s = s := by
  induction ops with
  | nil => intro s _; rfl
  | cons kv rest ih =>
    intro s hs
    have h1 : set_attribute s kv.1 kv.2 = s := by simp [set_attribute, hs]
    simp only [List.foldl_cons, h1]
    exact ih s hs

/-- C9. Immutability after end: on an ended span `set_attribute` (and any
sequence of such calls) is a no-op that leaves the span — in particular its
attributes — unchanged, and being a total function it never raises; only the
first `end` captures the end time, and every later `end` is a no-op. -/
theorem C9_immutable_after_end (s : SdkSpan) (t t2 : Nat) (k : String)
    (v : AttrValue) (ops : List (String × AttrValue)) :
    (s.ended = true → set_attribute s k v = s ∧
      ops.foldl (fun sp kv => set_attribute sp kv.1 kv.2) s = s ∧
      end_span s t2 = s) ∧
    (end_span s t).ended = true ∧
    (s.ended = false → (end_span s t).endTime = some t) ∧
    end_span (end_span s t) t2 = end_span s t ∧
    set_attribute (end_span s t) k v = end_span s t ∧
    (set_attribute (end_span s t) k v).attributes = (end_span s t).attributes := by
  have hend : ∀ u : SdkSpan, u.ended = true →
      (set_attribute u k v = u ∧ end_span u t2 = u) := by
    intro u hu
    exact ⟨by simp [set_attribute, hu], by simp [end_span, hu]⟩
  have hended : (end_span s t).ended = true := by
    by_cases hs : s.ended <;> simp [end_span, hs]
  refine ⟨fun hs => ⟨(hend s hs).1, foldl_set_attribute_ended ops s hs, (hend s hs).2⟩,
    hended, ?_, (hend _ hended).2, (hend _ hended).1, by rw [(hend _ hended).1]⟩
  intro hs
  simp [end_span, hs]

/-- Witness for C9 at a concrete ended span. -/
theorem C9_immutable_after_end_witness :
    set_attribute ⟨[], SpanStatus.unset, 0, some 3, true⟩ "k" (AttrValue.boolean true) =
      ⟨[], SpanStatus.unset, 0, some 3, true⟩ ∧
    (end_span ⟨[], SpanStatus.unset, 0, none, false⟩ 4).endTime = some 4 :=
  ⟨((C9_immutable_after_end ⟨[], SpanStatus.unset, 0, some 3, true⟩ 1 2 "k"
      (AttrValue.boolean true) []).1 rfl).1,
   (C9_immutable_after_end ⟨[], SpanStatus.unset, 0, none, false⟩ 4 2 "k"
      (AttrValue.boolean true) []).2.2.1 rfl⟩

/-! ### Producer-side hand-off -/

lemma dropWhile_of_all_neg {α : Type} (p : α → Bool) (l : List α)
    (h : ∀ c ∈ l, p c = false) : l.dropWhile p = l := by
  cases l with
  | nil => rfl
  | cons a l =>
    have ha := h a (by simp)
    simp [List.dropWhile_cons, ha]

lemma pyStrip_of_no_space (s : String)
    (h : ∀ c ∈ s.data, isPySpace c = false) : pyStrip s = s := by
  rw [pyStrip, dropWhile_of_all_neg _ _ h,
    dropWhile_of_all_neg _ _ (fun c hc => h c (List.mem_reverse.mp hc)),
    List.reverse_reverse]

lemma toHexChars_no_space (w : Nat) :
    ∀ n, ∀ c ∈ toHexChars w n, isPySpace c = false := by
  induction w with
  | zero => intro n c hc; simp [toHexChars] at hc
  | succ w ih =>
    intro n c hc
    simp only [toHexChars, List.mem_append, List.mem_singleton] at hc
    rcases hc with h | h
    · exact ih _ c h
    · subst h
      have : n % 16 < 16 := Nat.mod_lt _ (by norm_num)
      interval_cases h : n % 16 <;> decide

lemma traceparentChars_no_space (c : TraceContext) :
    ∀ ch ∈ traceparentChars c, isPySpace ch = false := by
  intro ch hch
  simp only [traceparentChars, List.mem_append, List.mem_cons] at hch
  rcases hch with h | h | h | h | h | h | h
  · exact toHexChars_no_space 2 0 ch h
  · subst h; decide
  · exact toHexChars_no_space 32 _ ch h
  · subst h; decide
  · exact toHexChars_no_space 16 _ ch h
  · subst h; decide
  · exact toHexChars_no_space 2 _ ch h

lemma dictGetCI_dictSet_ne (d : List (String × String)) (k k' v : String)
    (h : lowerStr k ≠ k') : dictGetCI (dictSet d k v) k' = dictGetCI d k' := by
  induction d with
  | nil =>
    simp only [dictSet, dictGetCI]
    rw [List.find?_cons_of_neg _ (by simpa using h)]
  | cons a rest ih =>
    obtain ⟨a1, a2⟩ := a
    simp only [dictSet]
    split
    · next heq =>
        subst heq
        simp only [dictGetCI]
        rw [List.find?_cons_of_neg _ (by simpa using h),
          List.find?_cons_of_neg _ (by simpa using h)]
    · next hne =>
        simp only [dictGetCI] at ih ⊢
        by_cases hk' : lowerStr a1 = k'
        · rw [List.find?_cons_of_pos _ (by simpa using hk'),
            List.find?_cons_of_pos _ (by simpa using hk')]
        · rw [List.find?_cons_of_neg _ (by simpa using hk'),
            List.find?_cons_of_neg _ (by simpa using hk')]
          exact ih

/-- C7. Outbound hand-off: on the successful queue path the context is
injected into the string-keyed carrier inside the `sqs.send` PRODUCER span and
strictly before the send call executes (the event list is, in program order:
producer-span start, injection, send, producer-span end); the injected
`traceparent` encodes the PRODUCER span's own trace id (the active trace's)
and span id in the fixed §4.1 format; and the attributes handed to the send
call carry exactly that context — the consumer-side carrier building plus
extraction recovers it. -/
theorem C7_producer_inject (active : TraceContext) (sid : Nat)
    (cid : Option String)
    (hval : TraceContext.Valid ⟨active.trace_id, sid, active.trace_flags⟩) :
    ∃ attrs : List (String × MessageAttributeValue),
      (queue_for_processing active sid cid).1 =
        [QueueEvent.startProducerSpan ⟨active.trace_id, sid, active.trace_flags⟩,
          QueueEvent.injectEvent (inject ⟨active.trace_id, sid, active.trace_flags⟩),
          QueueEvent.sendEvent SQS_QUEUE_URL attrs,
          QueueEvent.endProducerSpan] ∧
      dictGet attrs "traceparent" = some ⟨none,
        some (String.mk (traceparentChars ⟨active.trace_id, sid, active.trace_flags⟩))⟩ ∧
      extract (_carrier_from_sqs_attributes attrs) =
        some ⟨active.trace_id, sid, active.trace_flags⟩ ∧
      (queue_for_processing active sid cid).2 = true := by
  have hlow : lowerStr "traceparent" = "traceparent" := by decide
  have hstrip : pyStrip (String.mk (traceparentChars
      ⟨active.trace_id, sid, active.trace_flags⟩)) =
      String.mk (traceparentChars ⟨active.trace_id, sid, active.trace_flags⟩) :=
    pyStrip_of_no_space _ (traceparentChars_no_space _)
  refine ⟨_, rfl, rfl, ?_, rfl⟩
  cases cid with
  | none =>
    show extract (_carrier_from_sqs_attributes
        [("traceparent", ⟨none, some (String.mk (traceparentChars
          ⟨active.trace_id, sid, active.trace_flags⟩))⟩)]) =
      some ⟨active.trace_id, sid, active.trace_flags⟩
    show extract (dictSet [] (lowerStr "traceparent")
        (pyStrip (String.mk (traceparentChars
          ⟨active.trace_id, sid, active.trace_flags⟩)))) =
      some ⟨active.trace_id, sid, active.trace_flags⟩
    rw [hlow, hstrip]
    show extract [("traceparent", String.mk (traceparentChars
        ⟨active.trace_id, sid, active.trace_flags⟩))] =
      some ⟨active.trace_id, sid, active.trace_flags⟩
    rw [extract, dictGetCI_traceparent_single]
    exact parseTraceparent_traceparentChars _ hval
  | some cv =>
    show extract (dictSet (dictSet [] (lowerStr "traceparent")
        (pyStrip (String.mk (traceparentChars
          ⟨active.trace_id, sid, active.trace_flags⟩))))
        (lowerStr "customer.id") (pyStrip cv)) =
      some ⟨active.trace_id, sid, active.trace_flags⟩
    rw [hlow, hstrip]
    have hget : dictGetCI (dictSet (dictSet [] "traceparent"
        (String.mk (traceparentChars ⟨active.trace_id, sid, active.trace_flags⟩)))
        (lowerStr "customer.id") (pyStrip cv)) "traceparent" =
        some (String.mk (traceparentChars
          ⟨active.trace_id, sid, active.trace_flags⟩)) := by
      rw [dictGetCI_dictSet_ne _ _ _ _ (by decide)]
      exact dictGetCI_traceparent_single _
    rw [extract, hget]
    exact parseTraceparent_traceparentChars _ hval

/-- Witness for C7 at the concrete end-to-end context. -/
theorem C7_producer_inject_witness :
    ∃ attrs : List (String × MessageAttributeValue),
      (queue_for_processing ⟨0x0af7651916cd43dd8448eb211c80319c, 99, 1⟩
          0xb7ad6b7169203331 (some "CUST-1")).1 =
        [QueueEvent.startProducerSpan
            ⟨0x0af7651916cd43dd8448eb211c80319c, 0xb7ad6b7169203331, 1⟩,
          QueueEvent.injectEvent (inject
            ⟨0x0af7651916cd43dd8448eb211c80319c, 0xb7ad6b7169203331, 1⟩),
          QueueEvent.sendEvent SQS_QUEUE_URL attrs,
          QueueEvent.endProducerSpan] ∧
      dictGet attrs "traceparent" = some ⟨none,
        some (String.mk (traceparentChars
          ⟨0x0af7651916cd43dd8448eb211c80319c, 0xb7ad6b7169203331, 1⟩))⟩ ∧
      extract (_carrier_from_sqs_attributes attrs) =
        some ⟨0x0af7651916cd43dd8448eb211c80319c, 0xb7ad6b7169203331, 1⟩ ∧
      (queue_for_processing ⟨0x0af7651916cd43dd8448eb211c80319c, 99, 1⟩
          0xb7ad6b7169203331 (some "CUST-1")).2 = true :=
  C7_producer_inject ⟨0x0af7651916cd43dd8448eb211c80319c, 99, 1⟩
    0xb7ad6b7169203331 (some "CUST-1") (by decide)

/-! ### Consumer batch loop invariants -/

lemma RuntimeId.genIn_mono {x : RuntimeId} {lo hi lo' hi' : Nat}
    (hlo : lo' ≤ lo) (hhi : hi ≤ hi') (h : x.genIn lo hi) : x.genIn lo' hi' := by
  cases x with
  | wire n => trivial
  | gen n => simp only [RuntimeId.genIn] at h ⊢; omega

lemma start_span_snd_ge (nm : String) (kind : SpanKind)
    (parent : Option SpanContext) (links : List SpanContext) (st : Nat) :
    st + 1 ≤ (start_span nm kind parent links st).2 := by
  cases parent <;> simp [start_span]

lemma processRecords_next_ge (rs : List SqsRecord) :
    ∀ st, st ≤ (processRecords rs st).next := by
  induction rs with
  | nil => intro st; simp [processRecords]
  | cons r rs ih =>
    intro st
    have h1 := start_span_snd_ge "sqs.process" .CONSUMER
      ((extractRecord r).map remoteContext) [] st
    have h2 := ih (start_span "sqs.process" .CONSUMER
      ((extractRecord r).map remoteContext) [] st).2
    simp only [processRecords]
    omega

lemma processRecords_genIn (rs : List SqsRecord) :
    ∀ st, ∀ sp ∈ (processRecords rs st).spans,
      sp.context.traceId.genIn st (processRecords rs st).next ∧
      sp.context.spanId.genIn st (processRecords rs st).next := by
  induction rs with
  | nil => intro st sp hsp; simp [processRecords] at hsp
  | cons r rs ih =>
    intro st sp hsp
    simp only [processRecords, List.mem_cons] at hsp ⊢
    rcases hsp with h | h
    · subst h
      cases hext : extractRecord r with
      | some c =>
        have hnext := processRecords_next_ge rs (st + 1)
        simp only [start_span, remoteContext, Option.map_some', RuntimeId.genIn]
        refine ⟨trivial, ?_⟩
        omega
      | none =>
        have hnext := processRecords_next_ge rs (st + 2)
        simp only [start_span, Option.map_none', RuntimeId.genIn]
        omega
    · have h2 := ih (start_span "sqs.process" .CONSUMER
        ((extractRecord r).map remoteContext) [] st).2 sp h
      have h1 := start_span_snd_ge "sqs.process" .CONSUMER
        ((extractRecord r).map remoteContext) [] st
      exact ⟨RuntimeId.genIn_mono (by omega) le_rfl h2.1,
        RuntimeId.genIn_mono (by omega) le_rfl h2.2⟩

lemma processRecords_length (rs : List SqsRecord) :
    ∀ st, (processRecords rs st).spans.length = rs.length := by
  induction rs with
  | nil => intro st; rfl
  | cons r rs ih => intro st; simp [processRecords, ih]

lemma processRecords_processed (rs : List SqsRecord) :
    ∀ st, (processRecords rs st).processed = rs.length := by
  induction rs with
  | nil => intro st; rfl
  | cons r rs ih => intro st; simp [processRecords, ih]

lemma processRecords_links (rs : List SqsRecord) :
    ∀ st, (processRecords rs st).links =
      rs.filterMap (fun r => (extractRecord r).map remoteContext) := by
  induction rs with
  | nil => intro st; rfl
  | cons r rs ih =>
    intro st
    cases hext : extractRecord r with
    | none => simp [processRecords, hext, List.filterMap_cons, ih]
    | some c => simp [processRecords, hext, List.filterMap_cons, ih]

lemma processRecords_traceIds (rs : List SqsRecord) :
    ∀ st, (∀ r ∈ rs, (extractRecord r).isSome) →
      (processRecords rs st).spans.map (fun sp => sp.context.traceId) =
        rs.filterMap (fun r =>
          (extractRecord r).map (fun c => RuntimeId.wire c.trace_id)) := by
  induction rs with
  | nil => intro st _; rfl
  | cons r rs ih =>
    intro st hall
    have hr := hall r (by simp)
    cases hext : extractRecord r with
    | none => rw [hext] at hr; simp at hr
    | some c =>
      have htail := ih (st + 1)
        (fun x hx => hall x (List.mem_cons_of_mem _ hx))
      simp [processRecords, hext, List.filterMap_cons, start_span,
        remoteContext, htail]

lemma filterMap_extract_length {β : Type} (g : TraceContext → β)
    (rs : List SqsRecord) (hall : ∀ r ∈ rs, (extractRecord r).isSome) :
    (rs.filterMap (fun r => (extractRecord r).map g)).length = rs.length := by
  induction rs with
  | nil => rfl
  | cons r rs ih =>
    have hr := hall r (by simp)
    cases hext : extractRecord r with
    | none => rw [hext] at hr; simp at hr
    | some c =>
      simp [List.filterMap_cons, hext,
        ih (fun x hx => hall x (List.mem_cons_of_mem _ hx))]

lemma dedup_map_injective {α β : Type} [DecidableEq α] [DecidableEq β]
    {f : α → β} (hf : Function.Injective f) (l : List α) :
    (l.map f).dedup = l.dedup.map f := by
  induction l with
  | nil => rfl
  | cons a l ih =>
    by_cases ha : a ∈ l
    · rw [List.map_cons, List.dedup_cons_of_mem (List.mem_map_of_mem f ha),
        List.dedup_cons_of_mem ha, ih]
    · have hnm : f a ∉ l.map f := by
        intro hmem
        obtain ⟨b, hb, hfb⟩ := List.mem_map.mp hmem
        exact ha (hf hfb ▸ hb)
      rw [List.map_cons, List.dedup_cons_of_not_mem hnm,
        List.dedup_cons_of_not_mem ha, List.map_cons, ih]

lemma processRecords_pairwise (rs : List SqsRecord) :
    ∀ st, (processRecords rs st).spans.Pairwise
      (fun a b => ∀ n, ¬(a.context.traceId = RuntimeId.gen n ∧
        b.context.traceId = RuntimeId.gen n)) := by
  induction rs with
  | nil => intro st; simp [processRecords]
  | cons r rs ih =>
    intro st
    simp only [processRecords]
    refine List.Pairwise.cons ?_ (ih _)
    rintro b hb n ⟨ha, hbn⟩
    have hbrange := (processRecords_genIn rs _ b hb).1
    rw [hbn] at hbrange
    simp only [RuntimeId.genIn] at hbrange
    cases hext : extractRecord r with
    | some c =>
      rw [hext] at ha
      simp [start_span, remoteContext] at ha
    | none =>
      rw [hext] at ha hbrange
      simp only [start_span, Option.map_none'] at ha hbrange
      have : st = n := RuntimeId.gen.inj ha
      omega

lemma processRecords_get (rs : List SqsRecord) :
    ∀ (st i : Nat) (r : SqsRecord), rs[i]? = some r →
      ∃ sp, (processRecords rs st).spans[i]? = some sp ∧
        (extractRecord r = none → sp.parent = none ∧
          ∃ n, sp.context.traceId = RuntimeId.gen n) ∧
        (∀ c, extractRecord r = some c → sp.parent = some (remoteContext c) ∧
          sp.context.traceId = RuntimeId.wire c.trace_id) := by
  induction rs with
  | nil => intro st i r hr; simp at hr
  | cons r0 rs ih =>
    intro st i r hr
    cases i with
    | zero =>
      have hr0 : r0 = r := by simpa using hr
      subst r
      refine ⟨(start_span "sqs.process" .CONSUMER
        ((extractRecord r0).map remoteContext) [] st).1, ?_, ?_, ?_⟩
      · simp [processRecords]
      · intro hnone
        rw [hnone]
        exact ⟨rfl, st, rfl⟩
      · intro c hc
        rw [hc]
        exact ⟨rfl, rfl⟩
    | succ i =>
      simp only [List.getElem?_cons_succ] at hr
      obtain ⟨sp, hsp, h1, h2⟩ := ih (start_span "sqs.process" .CONSUMER
        ((extractRecord r0).map remoteContext) [] st).2 i r hr
      refine ⟨sp, ?_, h1, h2⟩
      simpa [processRecords] using hsp

/-- C1, counterexample to the claim as stated: the aggregate `sqs.batch` span
is not created with no single parent — on a one-record batch whose carrier
holds a valid traceparent, the batch span's parent is the `lambda.invoke`
invocation span (generated ids 0 and 1 of this invocation). -/
theorem C1_batch_parent_counterexample :
    (handlerBatch [⟨[("traceparent",
        ⟨some "00-0af7651916cd43dd8448eb211c80319c-b7ad6b7169203331-01", none⟩)],
      "m1", ""⟩] 0).batchSpan.parent ≠ none ∧
    (handlerBatch [⟨[("traceparent",
        ⟨some "00-0af7651916cd43dd8448eb211c80319c-b7ad6b7169203331-01", none⟩)],
      "m1", ""⟩] 0).batchSpan.parent =
      some ⟨RuntimeId.gen 0, RuntimeId.gen 1⟩ :=
  ⟨fun h => Option.noConfusion h, rfl⟩

/-- C1 as amended: on a batch of N records whose carriers all extract to
valid contexts, the per-record CONSUMER spans carry exactly the carriers'
trace ids (so they partition into exactly M distinct trace ids when the
carriers encode M), and the aggregate `sqs.batch` span is created as a child
of the `lambda.invoke` invocation span rather than of any per-message
context, carries a trace id distinct from every wire trace id (in particular
from all M), and holds exactly N links, one per record in record order, each
referencing that record's extracted context. -/
theorem C1_batch_fanin (records : List SqsRecord) (st : Nat)
    (hne : records ≠ [])
    (hall : ∀ r ∈ records, (extractRecord r).isSome) :
    handler records st = HandlerOutcome.batch (handlerBatch records st) ∧
    (handlerBatch records st).recordSpans.map (fun sp => sp.context.traceId) =
      records.filterMap (fun r =>
        (extractRecord r).map (fun c => RuntimeId.wire c.trace_id)) ∧
    ((handlerBatch records st).recordSpans.map
        (fun sp => sp.context.traceId)).dedup.length =
      (records.filterMap (fun r =>
        (extractRecord r).map (fun c => c.trace_id))).dedup.length ∧
    (handlerBatch records st).batchSpan.parent =
      some (handlerBatch records st).lambdaSpan.context ∧
    (∀ t : Nat,
      (handlerBatch records st).batchSpan.context.traceId ≠ RuntimeId.wire t) ∧
    (handlerBatch records st).batchSpan.links =
      records.filterMap (fun r => (extractRecord r).map remoteContext) ∧
    (handlerBatch records st).batchSpan.links.length = records.length ∧
    (handlerBatch records st).processed = records.length := by
  have hwinj : Function.Injective RuntimeId.wire := fun a b h => RuntimeId.wire.inj h
  have h2 := processRecords_traceIds records (st + 2) hall
  refine ⟨?_, h2, ?_, rfl, ?_, processRecords_links records (st + 2), ?_, ?_⟩
  · rcases records with _ | ⟨r, rs⟩
    · exact absurd rfl hne
    · rfl
  · show ((processRecords records (st + 2)).spans.map
        (fun sp => sp.context.traceId)).dedup.length =
      (records.filterMap (fun r =>
        (extractRecord r).map (fun c => c.trace_id))).dedup.length
    rw [h2]
    have h3 : records.filterMap (fun r =>
        (extractRecord r).map (fun c => RuntimeId.wire c.trace_id)) =
        (records.filterMap (fun r =>
          (extractRecord r).map (fun c => c.trace_id))).map RuntimeId.wire := by
      rw [List.map_filterMap]
      simp only [Option.map_map]
      rfl
    rw [h3, dedup_map_injective hwinj, List.length_map]
  · intro t h
    exact RuntimeId.noConfusion h
  · show ((processRecords records (st + 2)).links).length = records.length
    rw [processRecords_links records (st + 2)]
    exact filterMap_extract_length _ records hall
  · show (processRecords records (st + 2)).processed = records.length
    exact processRecords_processed records (st + 2)

/-- Witness for C1 as amended, on a concrete one-record batch with a valid
carrier: one link and one processed record. -/
theorem C1_batch_fanin_witness :
    (handlerBatch [⟨[("traceparent",
        ⟨some "00-0af7651916cd43dd8448eb211c80319c-b7ad6b7169203331-01", none⟩)],
      "m1", ""⟩] 0).batchSpan.links.length = 1 ∧
    (handlerBatch [⟨[("traceparent",
        ⟨some "00-0af7651916cd43dd8448eb211c80319c-b7ad6b7169203331-01", none⟩)],
      "m1", ""⟩] 0).processed = 1 :=
  ⟨(C1_batch_fanin [⟨[("traceparent",
        ⟨some "00-0af7651916cd43dd8448eb211c80319c-b7ad6b7169203331-01", none⟩)],
      "m1", ""⟩] 0 (by simp) (by decide)).2.2.2.2.2.2.1,
   (C1_batch_fanin [⟨[("traceparent",
        ⟨some "00-0af7651916cd43dd8448eb211c80319c-b7ad6b7169203331-01", none⟩)],
      "m1", ""⟩] 0 (by simp) (by decide)).2.2.2.2.2.2.2⟩

/-- C6. A record whose attributes carry no (valid) traceparent is still
processed — it keeps its own per-record CONSUMER span and counts towards the
processed total — and that span is a fresh root: no parent, freshly generated
trace id, distinct from every other record's span trace id and from the batch
span's trace id (so the record is never dropped and never merged into another
record's trace, nor made a child of the batch span's trace). -/
theorem C6_no_traceparent_fresh_root (records : List SqsRecord) (st i : Nat)
    (r : SqsRecord) (hr : records[i]? = some r)
    (hnone : extractRecord r = none) :
    handler records st = HandlerOutcome.batch (handlerBatch records st) ∧
    (handlerBatch records st).recordSpans.length = records.length ∧
    (handlerBatch records st).processed = records.length ∧
    ∃ sp, (handlerBatch records st).recordSpans[i]? = some sp ∧
      sp.parent = none ∧
      (∃ n, sp.context.traceId = RuntimeId.gen n) ∧
      (∀ j sp', j ≠ i →
        (handlerBatch records st).recordSpans[j]? = some sp' →
        sp'.context.traceId ≠ sp.context.traceId) ∧
      (handlerBatch records st).batchSpan.context.traceId ≠
        sp.context.traceId := by
  obtain ⟨sp, hsp, hfresh, _⟩ := processRecords_get records (st + 2) i r hr
  obtain ⟨hparent, n, hgen⟩ := hfresh hnone
  have hpw := processRecords_pairwise records (st + 2)
  rw [List.pairwise_iff_getElem] at hpw
  have hlen := processRecords_length records (st + 2)
  obtain ⟨hi, hieq⟩ := List.getElem?_eq_some.mp hsp
  refine ⟨?_, hlen, processRecords_processed records (st + 2),
    sp, hsp, hparent, ⟨n, hgen⟩, ?_, ?_⟩
  · rcases records with _ | ⟨r0, rs⟩
    · simp at hr
    · rfl
  · intro j sp' hji hsp' heq
    obtain ⟨hj, hjeq⟩ := List.getElem?_eq_some.mp hsp'
    rcases Nat.lt_or_ge j i with hlt | hge
    · have := hpw j i hj hi hlt n
      exact this ⟨hjeq ▸ (heq.trans hgen), hieq ▸ hgen⟩
    · have hlt' : i < j := lt_of_le_of_ne hge (fun h => hji h.symm)
      have := hpw i j hi hj hlt' n
      exact this ⟨hieq ▸ hgen, hjeq ▸ (heq.trans hgen)⟩
  · show RuntimeId.gen st ≠ sp.context.traceId
    have hmem : sp ∈ (processRecords records (st + 2)).spans :=
      hieq ▸ List.getElem_mem hi
    have hrange := (processRecords_genIn records (st + 2) sp hmem).1
    rw [hgen] at hrange
    simp only [RuntimeId.genIn] at hrange
    rw [hgen]
    intro h
    have := RuntimeId.gen.inj h
    omega

/-- Witness for C6: a two-record batch whose second record has no
traceparent. -/
theorem C6_no_traceparent_fresh_root_witness :
    ∃ sp, (handlerBatch [⟨[("traceparent",
        ⟨some "00-0af7651916cd43dd8448eb211c80319c-b7ad6b7169203331-01", none⟩)],
      "m1", ""⟩, ⟨[], "m2", ""⟩] 0).recordSpans[1]? = some sp ∧
      sp.parent = none ∧
      (∃ n, sp.context.traceId = RuntimeId.gen n) ∧
      (∀ j sp', j ≠ 1 →
        (handlerBatch [⟨[("traceparent",
            ⟨some "00-0af7651916cd43dd8448eb211c80319c-b7ad6b7169203331-01", none⟩)],
          "m1", ""⟩, ⟨[], "m2", ""⟩] 0).recordSpans[j]? = some sp' →
        sp'.context.traceId ≠ sp.context.traceId) ∧
      (handlerBatch [⟨[("traceparent",
          ⟨some "00-0af7651916cd43dd8448eb211c80319c-b7ad6b7169203331-01", none⟩)],
        "m1", ""⟩, ⟨[], "m2", ""⟩] 0).batchSpan.context.traceId ≠
        sp.context.traceId :=
  (C6_no_traceparent_fresh_root [⟨[("traceparent",
      ⟨some "00-0af7651916cd43dd8448eb211c80319c-b7ad6b7169203331-01", none⟩)],
    "m1", ""⟩, ⟨[], "m2", ""⟩] 0 1 ⟨[], "m2", ""⟩ rfl rfl).2.2.2

end Demo
